/-
Verification of libmdf4 against its specification.

Part 1 models the mdf4-export command-line front end, translated from
src/mdf4-export/main.cpp. Part 2 models the core library (FileIndex,
SampleDecoder, ConversionEngine); the library implementation files are not
part of the source tree given here, so those definitions are modelled from
the specification text and marked as such in their doc comments.
-/
import Mathlib

namespace Mdf4Export

/-- Exit code EXIT_SUCCESS of the C runtime. -/
def EXIT_SUCCESS : Int := 0

/-- Exit code EXIT_FAILURE of the C runtime. -/
def EXIT_FAILURE : Int := 1

/-- One parsed command-line option, as delivered by getopt_long in main.cpp.
Options taking an argument carry it. The unknown case is the default branch
of the switch. -/
inductive COpt where
  | s | S | u | U
  | d (arg : String) | r (arg : String)
  | g (arg : String) | p (arg : String)
  | c (arg : String)
  | h | V
  | unknown
deriving DecidableEq

/-- The mutable option state of main.cpp (the file-scope statics at lines
55..61), with their initializers. -/
structure OptState where
  print_column_header : Bool
  print_unit_row : Bool
  column_delimiter : String
  row_delimiter : String
  data_group_index : Int
  channel_group_index : Int
  channel_ranges : String
deriving DecidableEq

/-- Initial values of the option statics in main.cpp. -/
def initialOptState : OptState :=
  { print_column_header := true
    print_unit_row := true
    column_delimiter := ","
    row_delimiter := "\n"
    data_group_index := -1
    channel_group_index := -1
    channel_ranges := "" }

/-- Numeric value of a list of decimal digit characters. -/
def digitsVal (s : List Char) : Int :=
  s.foldl (fun acc ch => acc * 10 + ((ch.toNat : Int) - 48)) 0

/-- boost lexical_cast to int over a character range: an optional sign
followed by at least one digit, the whole range consumed, and the value
within the int range; anything else throws bad_lexical_cast (modelled as
none). -/
def lexicalCastInt (s : List Char) : Option Int :=
  match s with
  | [] => none
  | ch :: rest =>
    if ch = '-' then
      if rest ≠ [] ∧ rest.all Char.isDigit ∧ digitsVal rest ≤ 2147483648 then
        some (-(digitsVal rest))
      else none
    else if ch = '+' then
      if rest ≠ [] ∧ rest.all Char.isDigit ∧ digitsVal rest ≤ 2147483647 then
        some (digitsVal rest)
      else none
    else
      if (ch :: rest).all Char.isDigit ∧ digitsVal (ch :: rest) ≤ 2147483647 then
        some (digitsVal (ch :: rest))
      else none

/-- boost lexical_cast to unsigned over a string, used for the -g and -p
option arguments in main.cpp: digits only, within unsigned range. -/
def lexicalCastUnsigned (s : String) : Option Int :=
  match s.toList with
  | [] => none
  | l =>
    if l.all Char.isDigit ∧ digitsVal l ≤ 4294967295 then
      some (digitsVal l)
    else none

/-- How a call of parse_range can abort: thrown is an exception propagating
to the catch block in main (bad_lexical_cast from lexical_cast, or the
std::exception thrown by atoi on a negative result); exited is the direct
exit(EXIT_FAILURE) performed by check_channel_bounds. -/
inductive RangeFail where
  | thrown
  | exited
deriving DecidableEq

/-- The static helper atoi of main.cpp (lines 123..130): lexical_cast to
int over the range, then throw if the result is negative. -/
def atoi (s : List Char) : Except RangeFail Int :=
  match lexicalCastInt s with
  | none => .error .thrown
  | some n => if n < 0 then .error .thrown else .ok n

/-- check_channel_bounds of main.cpp (lines 137..143): exits the process
with EXIT_FAILURE when the index is out of bounds. -/
def check_channel_bounds (n : Int) (channel_count : Int) : Except RangeFail Unit :=
  if n ≥ channel_count ∨ n < 0 then .error .exited else .ok ()

/-- Index of the first occurrence of the separator in the range string, or
its length when absent: the C++ iterator returned by std::find at line 147,
as an offset from begin. -/
def sepIndex (s : List Char) : Nat :=
  match s with
  | [] => 0
  | ch :: rest => if ch = '-' then 0 else sepIndex rest + 1

/-- parse_range of main.cpp (lines 145..185), translated branch by branch.
The first branch (the -M form) is a plain if with no else, so after it runs
control falls through into the N / N- / N-M chain; the accumulated result
vector is threaded through. -/
def parse_range (result : List Int) (str : List Char) (channel_count : Int) :
    Except RangeFail (List Int) := do
  let idx := sepIndex str
  let result ←
    if idx = 0 then do
      let e ← atoi (str.drop 1)
      check_channel_bounds e channel_count
      pure (result ++ (List.range (e + 1).toNat).map (fun k => (k : Int)))
    else pure result
  if idx = str.length then do
    let n ← atoi str
    check_channel_bounds n channel_count
    pure (result ++ [n])
  else if idx = str.length - 1 then do
    let start ← atoi (str.take (str.length - 1))
    check_channel_bounds start channel_count
    pure (result ++ (List.range (channel_count - start).toNat).map (fun k => start + k))
  else do
    let start ← atoi (str.take idx)
    let e ← atoi (str.drop (idx + 1))
    check_channel_bounds start channel_count
    check_channel_bounds e channel_count
    pure (result ++ (List.range (e - start + 1).toNat).map (fun k => start + k))

/-- boost split on comma, as used at line 197 of main.cpp: the empty list
splits to one empty piece, and every comma starts a new piece. -/
def splitComma (s : List Char) : List (List Char) :=
  match s with
  | [] => [[]]
  | ch :: rest =>
    if ch = ',' then [] :: splitComma rest
    else
      match splitComma rest with
      | [] => [[ch]]
      | r :: rs => (ch :: r) :: rs

/-- parse_ranges of main.cpp (lines 192..204): split the list on commas and
run parse_range on each piece, accumulating into one result vector. -/
def parse_ranges (str : String) (channel_count : Int) : Except RangeFail (List Int) :=
  (splitComma str.toList).foldlM
    (fun acc r => parse_range acc r channel_count) []

/-- One step of the getopt_long switch in main.cpp (lines 215..283). An
error value is an early return from main with that exit code. Note that the
source cases for u (line 226) and U (line 230) assign print_column_header,
not print_unit_row. -/
def applyOpt (st : OptState) (o : COpt) : Except Int OptState :=
  match o with
  | .s => .ok { st with print_column_header := true }
  | .S => .ok { st with print_column_header := false }
  | .u => .ok { st with print_column_header := true }
  | .U => .ok { st with print_column_header := false }
  | .d a => .ok { st with column_delimiter := a }
  | .r a => .ok { st with row_delimiter := a }
  | .g a =>
    match lexicalCastUnsigned a with
    | some n => .ok { st with data_group_index := n }
    | none => .error EXIT_FAILURE
  | .p a =>
    match lexicalCastUnsigned a with
    | some n => .ok { st with channel_group_index := n }
    | none => .error EXIT_FAILURE
  | .c a => .ok { st with channel_ranges := a }
  | .h => .error EXIT_SUCCESS
  | .V => .error EXIT_SUCCESS
  | .unknown => .error EXIT_FAILURE

/-- The whole option loop of main.cpp, folding applyOpt over the parsed
options starting from the static initializers. -/
def processOpts (opts : List COpt) : Except Int OptState :=
  opts.foldlM applyOpt initialOptState

/-- A channel as the front end sees it through the library interface:
get_name, get_metadata_unit, and the decoded doubles from get_data_real. -/
structure MChannel where
  name : String
  unit : String
  values : List ℚ
deriving DecidableEq, Inhabited

/-- A channel group as the front end sees it. -/
structure MChannelGroup where
  channels : List MChannel
deriving DecidableEq, Inhabited

/-- A data group as the front end sees it. -/
structure MDataGroup where
  channel_groups : List MChannelGroup
deriving DecidableEq, Inhabited

/-- A parsed mdf file as the front end sees it through get_data_groups. -/
structure MFile where
  data_groups : List MDataGroup
deriving DecidableEq, Inhabited

/-- One row written to stdout by main.cpp: the column-header row, the unit
row, or a data row of doubles. -/
inductive OutRow where
  | header (cells : List String)
  | units (cells : List String)
  | dataRow (cells : List ℚ)
deriving DecidableEq

/-- Result of a run of the front end past option parsing: normal process
exit with a code and the rows written to stdout, or abnormal termination
from an uncaught exception in the data-printing loop (the rows already
written are kept; a partially written crashing row is not modelled). -/
inductive MainOutcome where
  | exited (code : Int) (out : List OutRow)
  | crashed (out : List OutRow)
deriving DecidableEq

/-- The rows written to stdout in either outcome. -/
def MainOutcome.out : MainOutcome → List OutRow
  | .exited _ r => r
  | .crashed r => r

/-- The data-printing loop body of main.cpp (lines 387..394), iterating
record index i over n steps: each full row reads cell i of every column via
vector::at, which throws out_of_range when some column is too short. -/
def printDataGo (table : List (List ℚ)) : Nat → Nat → List OutRow × Bool
  | _, 0 => ([], true)
  | i, n + 1 =>
    if table.all (fun col => decide (i < col.length)) then
      let rest := printDataGo table (i + 1) n
      (OutRow.dataRow (table.map (fun col => col.getD i 0)) :: rest.1, rest.2)
    else ([], false)

/-- The data-printing loop of main.cpp (lines 387..394): record index runs
from 1 while it is below the size of column 0. -/
def printData (table : List (List ℚ)) : List OutRow × Bool :=
  printDataGo table 1 ((table.headD []).length - 1)

/-- The body of main.cpp after the mdf file is opened (lines 297..396):
data-group selection, channel-group selection, channel-range parsing, table
building, and the three printing stages. Out-of-bounds vector indexing
that is undefined behaviour in the source (possible through the strict >
comparison at line 323) is modelled by a default element. -/
def mainAfterOpen (st : OptState) (f : MFile) : MainOutcome :=
  let data_groups := f.data_groups
  if st.data_group_index = -1 ∧ 1 < data_groups.length then .exited EXIT_FAILURE []
  else
    let dgi : Int := if st.data_group_index = -1 then 0 else st.data_group_index
    if (data_groups.length : Int) ≤ dgi then .exited EXIT_FAILURE []
    else
      let data_group := data_groups.getD dgi.toNat default
      let channel_groups := data_group.channel_groups
      if st.channel_group_index = -1 ∧ 1 < channel_groups.length then .exited EXIT_FAILURE []
      else
        let cgi : Int := if st.channel_group_index = -1 then 0 else st.channel_group_index
        if (channel_groups.length : Int) < cgi then .exited EXIT_FAILURE []
        else
          let channel_group := channel_groups.getD cgi.toNat default
          let channels := channel_group.channels
          let channelListE : Except RangeFail (List Int) :=
            if st.channel_ranges ≠ "" then
              parse_ranges st.channel_ranges (channels.length : Int)
            else
              .ok ((List.range channels.length).map (fun k => (k : Int)))
          match channelListE with
          | .error _ => .exited EXIT_FAILURE []
          | .ok channel_list =>
            if channel_list = [] then .exited EXIT_SUCCESS []
            else
              let cols := channel_list.map (fun i => channels.getD i.toNat default)
              let headerRows :=
                (if st.print_column_header then [OutRow.header (cols.map (fun ch => ch.name))]
                 else [])
                ++ (if st.print_unit_row then [OutRow.units (cols.map (fun ch => ch.unit))]
                    else [])
              let res := printData (cols.map (fun ch => ch.values))
              if res.2 then .exited EXIT_SUCCESS (headerRows ++ res.1)
              else .crashed (headerRows ++ res.1)

/-- A full run of the front end on parsed options and an opened file. -/
def mainRun (opts : List COpt) (f : MFile) : MainOutcome :=
  match processOpts opts with
  | .error code => .exited code []
  | .ok st => mainAfterOpen st f

/-- A concrete channel used to instantiate the theorems below. -/
def sampleChannel : MChannel := ⟨"ch", "V", [10, 20, 30]⟩

/-- A concrete file with one data group, one channel group, one channel. -/
def sampleFile : MFile := ⟨[⟨[⟨[sampleChannel]⟩]⟩]⟩

/-- A concrete file with two data groups. -/
def twoDGFile : MFile := ⟨[⟨[]⟩, ⟨[]⟩]⟩

/-- A concrete file with one data group holding two channel groups. -/
def twoCGFile : MFile := ⟨[⟨[⟨[]⟩, ⟨[]⟩]⟩]⟩

end Mdf4Export

namespace Mdf4

/-- Modelled from the spec: the error taxonomy of section 7. The library
implementation files are not in the given source tree, so this and the
following library definitions are built from the specification text.
ArithmeticError::DivisionByZero is absent because the spec resolves it
per value as NaN, never as a call failure. -/
inductive Err where
  | ioError
  | formatBadSignature
  | formatTruncatedBlock
  | formatNotAnMdf4File
  | formatCyclicLink
  | formatInvalidChannelLayout
  | rangeError
  | unsupportedFeature
  | typeMismatch
deriving DecidableEq

/-- Modelled from the spec: one decoded or converted channel value; the
spec works in f64, modelled as a rational number or NaN. -/
inductive Value where
  | num (q : ℚ)
  | nan
deriving DecidableEq

/-- Modelled from the spec: the conversion descriptor family of section
4.4 (data model) and 4.5. Value tables are (key, value) pairs; range
tables are (low, high, value) triples. -/
inductive Conversion where
  | identity
  | linear (a b : ℚ)
  | rational (p1 p2 p3 p4 p5 p6 : ℚ)
  | valueTable (pairs : List (ℚ × ℚ))
  | rangeTable (entries : List (ℚ × ℚ × ℚ))
  | textTable (pairs : List (ℚ × String))
  | algebraic (formula : String)
deriving DecidableEq

/-- Distance from a raw value to a (low, high, value) range: zero inside
the range, distance to the nearer bound outside it. -/
def entryDist (r : ℚ) (t : ℚ × ℚ × ℚ) : ℚ :=
  if r < t.1 then t.1 - r else if t.2.1 < r then r - t.2.1 else 0

/-- The range entry nearest to the raw value, keeping the earlier entry on
ties, folded over the tail of the table. -/
def nearestEntry (r : ℚ) : (ℚ × ℚ × ℚ) → List (ℚ × ℚ × ℚ) → ℚ × ℚ × ℚ
  | best, [] => best
  | best, t :: ts => nearestEntry r (if entryDist r t < entryDist r best then t else best) ts

/-- Modelled from the spec: value-range-to-value table lookup of section
4.5 — lookup by containing range; outside all ranges, return the nearest
boundary value (clamp), matching the MDF4 extrapolate-at-edges rule. -/
def rangeTableLookup (tbl : List (ℚ × ℚ × ℚ)) (r : ℚ) : Value :=
  match tbl.find? (fun t => decide (t.1 ≤ r) && decide (r ≤ t.2.1)) with
  | some t => .num t.2.2
  | none =>
    match tbl with
    | [] => .nan
    | t :: ts => .num (nearestEntry r t ts).2.2

/-- The value-table key nearest to the raw value, keeping the earlier pair
on ties. -/
def nearestKey (r : ℚ) : (ℚ × ℚ) → List (ℚ × ℚ) → ℚ × ℚ
  | best, [] => best
  | best, p :: ps => nearestKey r (if |r - p.1| < |r - best.1| then p else best) ps

/-- Modelled from the spec: value-to-value table lookup of section 4.5 —
exact key match, otherwise the nearest boundary value. -/
def valueTableLookup (pairs : List (ℚ × ℚ)) (r : ℚ) : Value :=
  match pairs.find? (fun p => decide (p.1 = r)) with
  | some p => .num p.2
  | none =>
    match pairs with
    | [] => .nan
    | p :: ps => .num (nearestKey r p ps).2

/-- Modelled from the spec: the pure per-value conversion of section 4.5.
A rational conversion whose denominator is exactly zero at this raw value
resolves to NaN. Text-table and algebraic conversions never reach apply:
they are reported as UnsupportedFeature by the channel-level call. -/
def apply (conv : Conversion) (raw : ℚ) : Value :=
  match conv with
  | .identity => .num raw
  | .linear a b => .num (a * raw + b)
  | .rational p1 p2 p3 p4 p5 p6 =>
    let den := p4 * raw ^ 2 + p5 * raw + p6
    if den = 0 then .nan else .num ((p1 * raw ^ 2 + p2 * raw + p3) / den)
  | .valueTable pairs => valueTableLookup pairs raw
  | .rangeTable entries => rangeTableLookup entries raw
  | .textTable _ => .nan
  | .algebraic _ => .nan

/-- apply lifted to a decoded value: NaN propagates through every
conversion. -/
def applyValue (conv : Conversion) : Value → Value
  | .nan => .nan
  | .num r => apply conv r

/-- Modelled from the spec: the conversion families the engine implements;
text tables and algebraic formulas are recognized but unsupported
(section 4.5). -/
def conversionSupported : Conversion → Bool
  | .textTable _ => false
  | .algebraic _ => false
  | _ => true

/-- Modelled from the spec: converting one decoded channel — apply is
invoked once per decoded raw value, in place, preserving order; an
unsupported conversion family is reported as UnsupportedFeature for the
whole channel (sections 4.5 and 7). -/
def convert_channel (conv : Conversion) (vs : List Value) : Except Err (List Value) :=
  if conversionSupported conv then .ok (vs.map (applyValue conv)) else .error .unsupportedFeature

/-- Modelled from the spec: the channel data type tag of the data model
(section 3). -/
inductive DataType where
  | uintT
  | sintT
  | floatT
  | stringT
  | byteArrayT
deriving DecidableEq

/-- Modelled from the spec: a Channel of the data model (section 3) — the
fields the decoder needs: data type tag, byte offset, bit offset within
that byte, bit count, and the optional conversion (none = identity). -/
structure Channel where
  name : String
  unit : String
  dataType : DataType
  byteOffset : Nat
  bitOffset : Nat
  bitCount : Nat
  conversion : Option Conversion
deriving DecidableEq

/-- Modelled from the spec: a ChannelGroup of the data model (section 3):
record length in bytes, cycle (record) count, sorted and VLSD flags, and
its channels. -/
structure ChannelGroup where
  recordLength : Nat
  cycleCount : Nat
  sorted : Bool
  vlsd : Bool
  channels : List Channel
deriving DecidableEq

/-- Bit number b of a byte sequence, little-endian bit numbering within
each byte, reading past the end as zero. -/
def bitAt (bytes : List Nat) (b : Nat) : Nat :=
  bytes.getD (b / 8) 0 / 2 ^ (b % 8) % 2

/-- Modelled from the spec: the generic bit-field extraction of section
4.4 — width bits starting at the given absolute bit position, assembled
little-endian. -/
def extractBits (bytes : List Nat) (start width : Nat) : Nat :=
  (List.range width).foldl (fun acc k => acc + bitAt bytes (start + k) * 2 ^ k) 0

/-- Modelled from the spec: IEEE 754 interpretation of a 32- or 64-bit
raw pattern (section 4.4); infinities and NaN patterns both map to the NaN
value of this model. -/
def ieeeToValue (w : Nat) (raw : Nat) : Value :=
  let mbits := if w = 32 then 23 else 52
  let ebits := if w = 32 then 8 else 11
  let bias : ℤ := 2 ^ (ebits - 1) - 1
  let s : Nat := raw / 2 ^ (w - 1)
  let e : Nat := raw / 2 ^ mbits % 2 ^ ebits
  let m : Nat := raw % 2 ^ mbits
  if e = 2 ^ ebits - 1 then .nan
  else
    let frac : ℚ := if e = 0 then (m : ℚ) / 2 ^ mbits else 1 + (m : ℚ) / 2 ^ mbits
    let ex : ℤ := if e = 0 then 1 - bias else (e : ℤ) - bias
    let mag : ℚ := frac * (2 : ℚ) ^ ex
    .num (if s = 1 then -mag else mag)

/-- Modelled from the spec: interpretation of an extracted bit pattern per
data type (section 4.4) — zero extension for unsigned, sign extension via
the top bit for signed, IEEE decoding for floats. String and byte-array
types never reach this point. -/
def interpretRaw (dt : DataType) (width : Nat) (raw : Nat) : Value :=
  match dt with
  | .uintT => .num (raw : ℚ)
  | .sintT => .num (((if 2 * raw ≥ 2 ^ width then (raw : ℤ) - 2 ^ width else (raw : ℤ)) : ℤ) : ℚ)
  | .floatT => ieeeToValue width raw
  | .stringT => .nan
  | .byteArrayT => .nan

/-- Modelled from the spec: decode_channel_as_f64 of section 4.4 over the
raw data bytes of the channel group. Checks, in order: channel membership
(RangeError), unsorted or VLSD group (UnsupportedFeature), bit range
within record_length*8 (RangeError, section 7: bit field exceeding record
length), non-numeric data type (TypeMismatch), float width exactly 32 or
64 (FormatError::InvalidChannelLayout), and data size (IoError). Then one
value per record, in record order, before conversion. -/
def decode_channel_as_f64 (g : ChannelGroup) (data : List Nat) (c : Channel) :
    Except Err (List Value) :=
  if c ∉ g.channels then .error .rangeError
  else if ¬g.sorted ∨ g.vlsd then .error .unsupportedFeature
  else if g.recordLength * 8 < c.byteOffset * 8 + c.bitOffset + c.bitCount then
    .error .rangeError
  else if c.dataType = .stringT ∨ c.dataType = .byteArrayT then .error .typeMismatch
  else if c.dataType = .floatT ∧ c.bitCount ≠ 32 ∧ c.bitCount ≠ 64 then
    .error .formatInvalidChannelLayout
  else if data.length < g.cycleCount * g.recordLength then .error .ioError
  else
    .ok ((List.range g.cycleCount).map fun i =>
      interpretRaw c.dataType c.bitCount
        (extractBits data (i * g.recordLength * 8 + c.byteOffset * 8 + c.bitOffset) c.bitCount))

/-- Modelled from the spec: what open needs of one Data Group record: its
next-sibling link read from the file. -/
structure RawDG where
  nextLink : Nat
deriving DecidableEq

/-- Modelled from the spec: the view of a source file that the FileIndex
walk of section 4.3 consumes — validity of the ID block at offset zero,
the first-Data-Group link reached through the Header block, and the
outcome of reading and parsing the Data Group subtree at an offset: none
is a failed read (IoError), an error value is a structural parse failure
of that subtree, an ok value carries the next-sibling link. -/
structure SpecSource where
  idBlockValid : Bool
  firstDGLink : Nat
  dgAt : Nat → Option (Except Err RawDG)

/-- Modelled from the spec: the sibling-list traversal of section 4.3,
step 3 — follow next links, terminating at a null (zero) link; an offset
already in the visited set is a FormatError::CyclicLink; a failed or
erroneous Data Group read aborts the walk with that error. The fuel
argument makes the recursion structural; none means fuel ran out, and
every theorem below supplies enough fuel for that not to happen. -/
def openWalk (src : SpecSource) : Nat → List Nat → Nat → Option (Except Err (List Nat))
  | 0, _, _ => none
  | fuel + 1, visited, off =>
    if off = 0 then some (.ok visited.reverse)
    else if off ∈ visited then some (.error .formatCyclicLink)
    else
      match src.dgAt off with
      | none => some (.error .ioError)
      | some (.error e) => some (.error e)
      | some (.ok dg) => openWalk src fuel (off :: visited) dg.nextLink

/-- Modelled from the spec: the open entry point of section 4.3 — verify
the ID block (FormatError::NotAnMdf4File otherwise), then walk the Data
Group sibling list; the result is the list of Data Group offsets in
on-disk link order, standing for the immutable parsed graph. -/
def openFile (src : SpecSource) (fuel : Nat) : Option (Except Err (List Nat)) :=
  if ¬src.idBlockValid then some (.error .formatNotAnMdf4File)
  else openWalk src fuel [] src.firstDGLink

/-- A concrete one-byte unsigned channel with a linear conversion. -/
def sampleUintChannel : Channel := ⟨"c", "V", .uintT, 0, 0, 8, some (.linear 2 3)⟩

/-- A concrete channel group of two one-byte records. -/
def sampleGroup : ChannelGroup := ⟨1, 2, true, false, [sampleUintChannel]⟩

/-- A channel whose bit range (bits 8..24) exceeds the 16 record bits of
mixedGroup. -/
def wideChannel : Channel := ⟨"w", "", .uintT, 1, 0, 16, none⟩

/-- A valid sub-byte channel: four bits at bit offset 4 of byte 0. -/
def narrowChannel : Channel := ⟨"n", "", .uintT, 0, 4, 4, none⟩

/-- A concrete group holding one invalid-layout and one valid channel. -/
def mixedGroup : ChannelGroup := ⟨2, 2, true, false, [wideChannel, narrowChannel]⟩

/-- A concrete source whose Data Group sibling links form the cycle
10 -> 20 -> 10. -/
def cyclicSource : SpecSource :=
  ⟨true, 10, fun o =>
    if o = 10 then some (.ok ⟨20⟩) else if o = 20 then some (.ok ⟨10⟩) else none⟩

/-- The offset chain of cyclicSource. -/
def cyclicChain : Nat → Nat := fun i => if i % 2 = 0 then 10 else 20

/-- A concrete source whose second Data Group fails to parse. -/
def badSource : SpecSource :=
  ⟨true, 10, fun o =>
    if o = 10 then some (.ok ⟨20⟩)
    else if o = 20 then some (.error .formatBadSignature) else none⟩

/-- The offset chain of badSource. -/
def badChain : Nat → Nat := fun i => if i = 0 then 10 else 20

end Mdf4

namespace Mdf4Export

lemma printDataGo_eq (table : List (List ℚ)) (L : Nat)
    (hall : ∀ col ∈ table, col.length = L) :
    ∀ n i, i + n ≤ L →
      printDataGo table i n =
        ((List.range n).map
          (fun k => OutRow.dataRow (table.map (fun col => col.getD (i + k) 0))), true) := by
  intro n
  induction n with
  | zero => intro i _; simp [printDataGo]
  | succ n ih =>
    intro i h
    have hc : table.all (fun col => decide (i < col.length)) = true := by
      simp only [List.all_eq_true, decide_eq_true_eq]
      intro col hcol
      rw [hall col hcol]
      omega
    rw [printDataGo, if_pos hc, ih (i + 1) (by omega)]
    simp only [List.range_succ_eq_map, List.map_cons, List.map_map, Function.comp_def,
      Nat.add_zero, Prod.mk.injEq, List.cons.injEq]
    refine ⟨⟨trivial, ?_⟩, trivial⟩
    apply List.map_congr_left
    intro k _
    have hik : i + 1 + k = i + k.succ := by omega
    rw [hik]

/-- C9: when the data-printing stage is reached with nonempty channel data
of uniform length L, the row loop starts at record index 1: exactly L - 1
data rows are printed, data row k holding the values at record index
1 + k, so the values at record index 0 are never written. -/
theorem c9_first_record_never_printed (table : List (List ℚ)) (L : Nat)
    (hne : table ≠ []) (hall : ∀ col ∈ table, col.length = L) (hL : 1 ≤ L) :
    printData table =
      ((List.range (L - 1)).map
        (fun k => OutRow.dataRow (table.map (fun col => col.getD (1 + k) 0))), true) := by
  obtain ⟨c0, rest, rfl⟩ : ∃ c0 rest, table = c0 :: rest := by
    cases table with
    | nil => exact absurd rfl hne
    | cons c0 rest => exact ⟨c0, rest, rfl⟩
  have h0 : ((c0 :: rest).headD []).length = L := hall c0 (by simp)
  unfold printData
  rw [h0, printDataGo_eq (c0 :: rest) L hall (L - 1) 1 (by omega)]

/-- Witness for C9 at a concrete table: one channel with three decoded
values, of which the first is dropped and the other two printed. -/
theorem c9_first_record_never_printed_witness :
    printData [[10, 20, 30]] = ([OutRow.dataRow [20], OutRow.dataRow [30]], true) := by
  rw [c9_first_record_never_printed [[10, 20, 30]] 3 (by decide) (by decide) (by omega)]
  decide

lemma toNat_of_isDigit (ch : Char) (h : ch.isDigit = true) :
    48 ≤ ch.toNat ∧ ch.toNat ≤ 57 := by
  simp only [Char.isDigit, Bool.and_eq_true, decide_eq_true_eq] at h
  obtain ⟨h1, h2⟩ := h
  exact ⟨h1, h2⟩

lemma digitsVal_foldl_nonneg :
    ∀ (M : List Char) (acc : Int), 0 ≤ acc → (∀ ch ∈ M, ch.isDigit) →
      0 ≤ M.foldl (fun acc ch => acc * 10 + ((ch.toNat : Int) - 48)) acc := by
  intro M
  induction M with
  | nil => intro acc h _; simpa using h
  | cons ch rest ih =>
    intro acc hacc hdig
    rw [List.foldl_cons]
    apply ih
    · have h48 := (toNat_of_isDigit ch (hdig ch (by simp))).1
      have : (48 : Int) ≤ (ch.toNat : Int) := by exact_mod_cast h48
      nlinarith
    · intro c hc
      exact hdig c (by simp [hc])

lemma digitsVal_nonneg (M : List Char) (hdig : ∀ ch ∈ M, ch.isDigit) :
    0 ≤ digitsVal M :=
  digitsVal_foldl_nonneg M 0 le_rfl hdig

lemma lexicalCastInt_digits (ch : Char) (rest : List Char)
    (hdig : ∀ c ∈ ch :: rest, c.isDigit)
    (hmax : digitsVal (ch :: rest) ≤ 2147483647) :
    lexicalCastInt (ch :: rest) = some (digitsVal (ch :: rest)) := by
  have hch : ch.isDigit := hdig ch (by simp)
  have hnd : ch ≠ '-' := by
    intro h
    rw [h] at hch
    exact absurd hch (by decide)
  have hnp : ch ≠ '+' := by
    intro h
    rw [h] at hch
    exact absurd hch (by decide)
  simp only [lexicalCastInt]
  rw [if_neg hnd, if_neg hnp, if_pos]
  refine ⟨?_, hmax⟩
  simp only [List.all_eq_true]
  exact hdig

lemma atoi_digits (M : List Char) (hne : M ≠ [])
    (hdig : ∀ c ∈ M, c.isDigit) (hmax : digitsVal M ≤ 2147483647) :
    atoi M = .ok (digitsVal M) := by
  obtain ⟨ch, rest, rfl⟩ : ∃ ch rest, M = ch :: rest := by
    cases M with
    | nil => exact absurd rfl hne
    | cons ch rest => exact ⟨ch, rest, rfl⟩
  unfold atoi
  rw [lexicalCastInt_digits ch rest hdig hmax]
  change (if digitsVal (ch :: rest) < 0 then Except.error RangeFail.thrown
    else Except.ok (digitsVal (ch :: rest))) = _
  rw [if_neg (by simpa using digitsVal_nonneg _ hdig)]

lemma splitComma_no_comma :
    ∀ (s : List Char), (∀ ch ∈ s, ch ≠ ',') → splitComma s = [s] := by
  intro s
  induction s with
  | nil => intro _; rfl
  | cons ch rest ih =>
    intro h
    unfold splitComma
    rw [if_neg (h ch (by simp)), ih (fun c hc => h c (by simp [hc]))]

lemma except_bind_ok {ε α β : Type} (a : α) (f : α → Except ε β) :
    (Except.ok a : Except ε α) >>= f = f a := rfl

lemma except_bind_error {ε α β : Type} (e : ε) (f : α → Except ε β) :
    (Except.error e : Except ε α) >>= f = .error e := rfl

lemma parse_range_dash (M : List Char) (cnt : Int) (hne : M ≠ [])
    (hdig : ∀ c ∈ M, c.isDigit) (hb : digitsVal M < cnt)
    (hmax : digitsVal M ≤ 2147483647) :
    parse_range [] ('-' :: M) cnt = .error .thrown := by
  have hidx : sepIndex ('-' :: M) = 0 := by simp [sepIndex]
  have hbound : check_channel_bounds (digitsVal M) cnt = .ok () := by
    unfold check_channel_bounds
    rw [if_neg]
    push_neg
    exact ⟨hb, digitsVal_nonneg M hdig⟩
  have hlenA : ((0 : Nat) = ('-' :: M).length) = False :=
    eq_false (by simp)
  have hlenB : ((0 : Nat) = ('-' :: M).length - 1) = False := by
    refine eq_false ?_
    simp only [List.length_cons, Nat.succ_sub_one]
    intro h
    exact hne (List.length_eq_zero.mp h.symm)
  unfold parse_range
  rw [hidx]
  simp only [eq_self_iff_true, if_true, List.drop_succ_cons, List.drop_zero, List.take_zero,
    atoi_digits M hne hdig hmax, hbound, except_bind_ok, except_bind_error, hlenA, hlenB,
    if_false]
  rfl

lemma parse_ranges_dash (M : List Char) (cnt : Int) (hne : M ≠ [])
    (hdig : ∀ c ∈ M, c.isDigit) (hb : digitsVal M < cnt)
    (hmax : digitsVal M ≤ 2147483647) :
    parse_ranges (String.mk ('-' :: M)) cnt = .error .thrown := by
  have hsplit : splitComma ('-' :: M) = [('-' :: M)] := by
    apply splitComma_no_comma
    intro ch hch
    rcases List.mem_cons.mp hch with h | h
    · rw [h]; decide
    · intro hc
      have := hdig ch h
      rw [hc] at this
      exact absurd this (by decide)
  show (splitComma (String.mk ('-' :: M)).toList).foldlM
      (fun acc r => parse_range acc r cnt) [] = .error .thrown
  have : (String.mk ('-' :: M)).toList = '-' :: M := rfl
  rw [this, hsplit, List.foldlM_cons, parse_range_dash M cnt hne hdig hb hmax]
  rfl

/-- C10: a channel range of the documented -M form is never accepted: the
-M branch of parse_range runs (its atoi and bounds check succeed), but the
missing else lets control fall into the N-M branch, whose atoi over the
empty prefix before the separator throws; the exception reaches the catch
in main and the run exits with EXIT_FAILURE. -/
theorem c10_dash_m_range_never_accepted (M : List Char) (cnt : Int) (hne : M ≠ [])
    (hdig : ∀ c ∈ M, c.isDigit) (hb : digitsVal M < cnt)
    (hmax : digitsVal M ≤ 2147483647) :
    atoi M = .ok (digitsVal M) ∧
    check_channel_bounds (digitsVal M) cnt = .ok () ∧
    atoi ([] : List Char) = .error .thrown ∧
    parse_range [] ('-' :: M) cnt = .error .thrown ∧
    parse_ranges (String.mk ('-' :: M)) cnt = .error .thrown ∧
    ∀ (st : OptState) (f : MFile) (dg : MDataGroup) (cg : MChannelGroup),
      st.channel_ranges = String.mk ('-' :: M) →
      st.data_group_index = -1 → st.channel_group_index = -1 →
      f.data_groups = [dg] → dg.channel_groups = [cg] →
      (cg.channels.length : Int) = cnt →
      mainAfterOpen st f = .exited EXIT_FAILURE [] := by
  refine ⟨atoi_digits M hne hdig hmax, ?_, rfl,
    parse_range_dash M cnt hne hdig hb hmax,
    parse_ranges_dash M cnt hne hdig hb hmax, ?_⟩
  · unfold check_channel_bounds
    rw [if_neg]
    push_neg
    exact ⟨hb, digitsVal_nonneg M hdig⟩
  · intro st f dg cg hcr hdgi hcgi hf hdgf hcn
    have hns : st.channel_ranges ≠ "" := by
      rw [hcr]
      intro h
      exact absurd (congrArg String.data h) (by simp)
    have hfalse : (String.mk ('-' :: M) = "") = False :=
      eq_false (fun h => absurd (congrArg String.data h) (by simp))
    simp [mainAfterOpen, hf, hdgf, hdgi, hcgi, hcr, hns, hcn, hfalse,
      parse_ranges_dash M cnt hne hdig hb hmax]

/-- Witness for C10: the range -0 on a one-channel file is rejected with
an exception even though channel 0 exists, and the run fails. -/
theorem c10_dash_m_range_never_accepted_witness :
    parse_range [] ('-' :: ['0']) 1 = .error .thrown ∧
    mainAfterOpen { initialOptState with channel_ranges := "-0" } sampleFile =
      .exited EXIT_FAILURE [] := by
  have h := c10_dash_m_range_never_accepted ['0'] 1 (by decide) (by decide) (by decide)
    (by decide)
  exact ⟨h.2.2.2.1,
    h.2.2.2.2.2 _ sampleFile ⟨[⟨[sampleChannel]⟩]⟩ ⟨[sampleChannel]⟩ rfl rfl rfl rfl rfl
      (by decide)⟩

/-- C7: with more than one data group and no -g selection, and likewise
with more than one channel group in the selected data group and no -p
selection, the front end prints a usage error and exits with failure
before exporting anything. -/
theorem c7_missing_selection_is_usage_error (st : OptState) (f : MFile) :
    (st.data_group_index = -1 → 1 < f.data_groups.length →
      mainAfterOpen st f = .exited EXIT_FAILURE []) ∧
    (st.data_group_index = -1 → st.channel_group_index = -1 →
      f.data_groups.length = 1 →
      1 < (f.data_groups.getD 0 default).channel_groups.length →
      mainAfterOpen st f = .exited EXIT_FAILURE []) := by
  constructor
  · intro h1 h2
    unfold mainAfterOpen
    rw [if_pos ⟨h1, h2⟩]
  · intro h1 h2 hlen hcg
    unfold mainAfterOpen
    have hne : ¬(st.data_group_index = -1 ∧ 1 < f.data_groups.length) := by
      rintro ⟨-, hl⟩
      omega
    rw [if_neg hne, if_pos h1, hlen]
    rw [if_neg (by norm_num : ¬((1 : Nat) : Int) ≤ 0)]
    rw [if_pos ⟨h2, hcg⟩]

lemma applyOpt_print_unit_row (st : OptState) (o : COpt) (st' : OptState)
    (h : applyOpt st o = .ok st') : st'.print_unit_row = st.print_unit_row := by
  cases o
  case g a =>
    cases hl : lexicalCastUnsigned a <;> simp only [applyOpt, hl, Except.ok.injEq] at h
    · exact Except.noConfusion h
    · rw [← h]
  case p a =>
    cases hl : lexicalCastUnsigned a <;> simp only [applyOpt, hl, Except.ok.injEq] at h
    · exact Except.noConfusion h
    · rw [← h]
  case h => exact Except.noConfusion h
  case V => exact Except.noConfusion h
  case unknown => exact Except.noConfusion h
  all_goals
    simp only [applyOpt, Except.ok.injEq] at h
  all_goals rw [← h]

lemma foldlM_applyOpt_print_unit_row :
    ∀ (opts : List COpt) (st st' : OptState),
      opts.foldlM applyOpt st = .ok st' → st'.print_unit_row = st.print_unit_row := by
  intro opts
  induction opts with
  | nil =>
    intro st st' h
    simp only [List.foldlM_nil, pure] at h
    injection h with h
    rw [h]
  | cons o opts ih =>
    intro st st' h
    rw [List.foldlM_cons] at h
    cases happ : applyOpt st o with
    | error c =>
      rw [happ] at h
      simp [Bind.bind, Except.bind] at h
    | ok s1 =>
      rw [happ] at h
      simp only [Bind.bind, Except.bind] at h
      rw [ih s1 st' h, applyOpt_print_unit_row st o s1 happ]

lemma exists_units_mem (A B : List OutRow) (X : List String) :
    ∃ us, OutRow.units us ∈ (A ++ [OutRow.units X]) ++ B :=
  ⟨X, by simp⟩

set_option maxHeartbeats 1000000 in
lemma mainAfterOpen_out_units (st : OptState) (f : MFile)
    (hur : st.print_unit_row = true) :
    (mainAfterOpen st f).out = [] ∨ ∃ us, OutRow.units us ∈ (mainAfterOpen st f).out := by
  simp only [mainAfterOpen]
  by_cases h1 : st.data_group_index = -1 ∧ 1 < f.data_groups.length
  · rw [if_pos h1]
    exact Or.inl rfl
  rw [if_neg h1]
  by_cases h2 : (f.data_groups.length : Int) ≤
      (if st.data_group_index = -1 then 0 else st.data_group_index)
  · rw [if_pos h2]
    exact Or.inl rfl
  rw [if_neg h2]
  by_cases h3 : st.channel_group_index = -1 ∧
      1 < ((f.data_groups.getD (if st.data_group_index = -1 then 0
        else st.data_group_index).toNat default).channel_groups).length
  · rw [if_pos h3]
    exact Or.inl rfl
  rw [if_neg h3]
  by_cases h4 : (((f.data_groups.getD (if st.data_group_index = -1 then 0
        else st.data_group_index).toNat default).channel_groups).length : Int) <
      (if st.channel_group_index = -1 then 0 else st.channel_group_index)
  · rw [if_pos h4]
    exact Or.inl rfl
  rw [if_neg h4]
  split
  · exact Or.inl rfl
  split
  · exact Or.inl rfl
  right
  simp only [apply_ite MainOutcome.out]
  simp only [MainOutcome.out, ite_self, hur, eq_self_iff_true, if_true]
  exact exists_units_mem _ _ _

/-- C8: the -u and -U option cases of the switch assign the column-header
flag print_column_header and never touch print_unit_row; print_unit_row
therefore still holds after processing any option list, and every run that
writes anything at all writes a unit row — in particular -U does not
suppress it. -/
theorem c8_no_unit_row_flag_never_assigned :
    (∀ st : OptState,
        applyOpt st .u = .ok { st with print_column_header := true } ∧
        applyOpt st .U = .ok { st with print_column_header := false }) ∧
    (∀ (opts : List COpt) (st : OptState), processOpts opts = .ok st →
        st.print_unit_row = true) ∧
    (∀ (opts : List COpt) (f : MFile),
        (mainRun opts f).out = [] ∨ ∃ us, OutRow.units us ∈ (mainRun opts f).out) := by
  refine ⟨fun st => ⟨rfl, rfl⟩, ?_, ?_⟩
  · intro opts st h
    exact foldlM_applyOpt_print_unit_row opts initialOptState st h
  · intro opts f
    unfold mainRun
    cases hp : processOpts opts with
    | error c => exact Or.inl rfl
    | ok st =>
      exact mainAfterOpen_out_units st f
        (foldlM_applyOpt_print_unit_row opts initialOptState st hp)

/-- Witness for C8: a run with -U on a concrete one-channel file still
prints the unit row. -/
theorem c8_no_unit_row_flag_never_assigned_witness :
    ∃ us, OutRow.units us ∈ (mainRun [COpt.U] sampleFile).out :=
  (c8_no_unit_row_flag_never_assigned.2.2 [COpt.U] sampleFile).resolve_left (by decide)

/-- Witness for C7: a file with two data groups, and a file whose single
data group holds two channel groups, both run with default options. -/
theorem c7_missing_selection_is_usage_error_witness :
    mainAfterOpen initialOptState twoDGFile = .exited EXIT_FAILURE [] ∧
    mainAfterOpen initialOptState twoCGFile = .exited EXIT_FAILURE [] :=
  ⟨(c7_missing_selection_is_usage_error initialOptState twoDGFile).1 rfl (by decide),
   (c7_missing_selection_is_usage_error initialOptState twoCGFile).2 rfl rfl (by decide)
     (by decide)⟩

end Mdf4Export

namespace Mdf4

deriving instance DecidableEq for Except

lemma getD_nan_eq (L : List Value) (j : Nat) (hj : j < L.length) :
    L.getD j .nan = L[j] := by
  rw [List.getD_eq_getElem?_getD, List.getElem?_eq_getElem hj]
  rfl

lemma decode_ok_shape (g : ChannelGroup) (data : List Nat) (c : Channel)
    (raws : List Value) (hdec : decode_channel_as_f64 g data c = .ok raws) :
    raws = (List.range g.cycleCount).map fun i =>
      interpretRaw c.dataType c.bitCount
        (extractBits data (i * g.recordLength * 8 + c.byteOffset * 8 + c.bitOffset)
          c.bitCount) := by
  unfold decode_channel_as_f64 at hdec
  split at hdec
  · exact Except.noConfusion hdec
  split at hdec
  · exact Except.noConfusion hdec
  split at hdec
  · exact Except.noConfusion hdec
  split at hdec
  · exact Except.noConfusion hdec
  split at hdec
  · exact Except.noConfusion hdec
  split at hdec
  · exact Except.noConfusion hdec
  injection hdec with hdec
  exact hdec.symm

/-- C1: decoding a channel and applying a linear conversion (a, b) yields
one value per record — the decoded sequence has cycle-count length, the
converted sequence has the same length, and at every record index the
converted value is a times the raw value plus b: apply runs once per
decoded value, preserving record order. -/
theorem c1_linear_conversion_per_record (g : ChannelGroup) (data : List Nat) (c : Channel)
    (a b : ℚ) (raws out : List Value)
    (hdec : decode_channel_as_f64 g data c = .ok raws)
    (hconv : convert_channel (.linear a b) raws = .ok out) :
    raws.length = g.cycleCount ∧ out.length = raws.length ∧
    ∀ i, i < raws.length → ∀ r : ℚ, raws.getD i .nan = .num r →
      out.getD i .nan = .num (a * r + b) := by
  have hout : out = raws.map (applyValue (.linear a b)) := by
    unfold convert_channel at hconv
    rw [if_pos (show conversionSupported (Conversion.linear a b) = true from rfl)] at hconv
    injection hconv with hconv
    exact hconv.symm
  have hlen : raws.length = g.cycleCount := by
    rw [decode_ok_shape g data c raws hdec, List.length_map, List.length_range]
  refine ⟨hlen, by rw [hout, List.length_map], ?_⟩
  intro i hi r hr
  rw [getD_nan_eq raws i hi] at hr
  have hi' : i < (raws.map (applyValue (.linear a b))).length := by
    rw [List.length_map]
    exact hi
  rw [hout, getD_nan_eq _ i hi']
  simp only [List.getElem_map, hr]
  rfl

/-- Witness for C1: a two-record one-byte unsigned channel with raw bytes
5 and 7 under the linear conversion (2, 3). -/
theorem c1_linear_conversion_per_record_witness :
    ([Value.num 5, Value.num 7] : List Value).length = sampleGroup.cycleCount ∧
    ([Value.num 13, Value.num 17] : List Value).getD 1 .nan = .num (2 * 7 + 3) := by
  have h := c1_linear_conversion_per_record sampleGroup [5, 7] sampleUintChannel 2 3
    [Value.num 5, Value.num 7] [Value.num 13, Value.num 17] (by decide)
    (by norm_num [convert_channel, conversionSupported, applyValue, apply])
  exact ⟨h.1, h.2.2 1 (by decide) 7 (by decide)⟩

/-- C4: converting a channel through a rational conversion never fails the
call: the converted list always comes back ok with one value per input;
a raw value at which the denominator is exactly zero resolves to NaN,
while every raw value with nonzero denominator converts to the quotient
of the two polynomials, unaffected by the bad records. -/
theorem c4_rational_zero_denominator_is_nan (p1 p2 p3 p4 p5 p6 : ℚ) (vs : List Value) :
    convert_channel (.rational p1 p2 p3 p4 p5 p6) vs =
      .ok (vs.map (applyValue (.rational p1 p2 p3 p4 p5 p6))) ∧
    (vs.map (applyValue (.rational p1 p2 p3 p4 p5 p6))).length = vs.length ∧
    ∀ i, i < vs.length → ∀ r : ℚ, vs.getD i .nan = .num r →
      (p4 * r ^ 2 + p5 * r + p6 = 0 →
        (vs.map (applyValue (.rational p1 p2 p3 p4 p5 p6))).getD i .nan = .nan) ∧
      (p4 * r ^ 2 + p5 * r + p6 ≠ 0 →
        (vs.map (applyValue (.rational p1 p2 p3 p4 p5 p6))).getD i .nan =
          .num ((p1 * r ^ 2 + p2 * r + p3) / (p4 * r ^ 2 + p5 * r + p6))) := by
  refine ⟨rfl, List.length_map vs _, ?_⟩
  intro i hi r hr
  rw [getD_nan_eq vs i hi] at hr
  have hi' : i < (vs.map (applyValue (.rational p1 p2 p3 p4 p5 p6))).length := by
    rw [List.length_map]
    exact hi
  rw [getD_nan_eq _ i hi']
  simp only [List.getElem_map, hr]
  constructor
  · intro hden
    simp only [applyValue, apply]
    rw [if_pos hden]
  · intro hden
    simp only [applyValue, apply]
    rw [if_neg hden]

/-- Witness for C4: the conversion raw -> raw / raw^2 over the raw values
0 and 2 — the zero-denominator record 0 becomes NaN while record 1
converts to one half, and the call itself succeeds. -/
theorem c4_rational_zero_denominator_is_nan_witness :
    ([Value.num 0, Value.num 2].map
      (applyValue (.rational 0 1 0 1 0 0))).getD 0 .nan = .nan ∧
    ([Value.num 0, Value.num 2].map
      (applyValue (.rational 0 1 0 1 0 0))).getD 1 .nan = .num ((0 * 2 ^ 2 + 1 * 2 + 0) / (1 * 2 ^ 2 + 0 * 2 + 0)) := by
  have h := c4_rational_zero_denominator_is_nan 0 1 0 1 0 0 [Value.num 0, Value.num 2]
  exact ⟨(h.2.2 0 (by decide) 0 (by decide)).1 (by norm_num),
    (h.2.2 1 (by decide) 2 (by decide)).2 (by norm_num)⟩

/-- C6: a channel whose bit range exceeds the record bit length fails its
own decode call with RangeError, while every sibling channel of the same
group with a valid layout still decodes successfully — the failure is
local to the bad channel and does not invalidate the rest of the graph. -/
theorem c6_bad_bit_range_local_to_channel (g : ChannelGroup) (data : List Nat) (c : Channel)
    (hmem : c ∈ g.channels) (hsorted : g.sorted = true) (hvlsd : g.vlsd = false)
    (hbad : g.recordLength * 8 < c.byteOffset * 8 + c.bitOffset + c.bitCount) :
    decode_channel_as_f64 g data c = .error .rangeError ∧
    ∀ c' ∈ g.channels,
      c'.byteOffset * 8 + c'.bitOffset + c'.bitCount ≤ g.recordLength * 8 →
      (c'.dataType = .uintT ∨ c'.dataType = .sintT ∨
        (c'.dataType = .floatT ∧ (c'.bitCount = 32 ∨ c'.bitCount = 64))) →
      g.cycleCount * g.recordLength ≤ data.length →
      ∃ vs, decode_channel_as_f64 g data c' = .ok vs := by
  constructor
  · unfold decode_channel_as_f64
    rw [if_neg (not_not_intro hmem), if_neg (by simp [hsorted, hvlsd]), if_pos hbad]
  · intro c' hmem' hlay htype hdata
    unfold decode_channel_as_f64
    rw [if_neg (not_not_intro hmem'), if_neg (by simp [hsorted, hvlsd]),
      if_neg (not_lt.mpr hlay)]
    rw [if_neg ?hstr, if_neg ?hflt, if_neg (not_lt.mpr hdata)]
    case hstr =>
      rcases htype with h | h | ⟨h, _⟩ <;> rw [h] <;> rintro (hc | hc) <;>
        exact DataType.noConfusion hc
    case hflt =>
      rcases htype with h | h | ⟨h, hw⟩
      · rw [h]; rintro ⟨hc, -⟩; exact DataType.noConfusion hc
      · rw [h]; rintro ⟨hc, -⟩; exact DataType.noConfusion hc
      · rintro ⟨-, h32, h64⟩
        rcases hw with hw | hw
        · exact h32 hw
        · exact h64 hw
    exact ⟨_, rfl⟩

/-- Witness for C6: in a group of two-byte records, a 16-bit channel at
byte offset 1 overflows the record and fails with RangeError, while a
4-bit sibling still decodes its two nibbles. -/
theorem c6_bad_bit_range_local_to_channel_witness :
    decode_channel_as_f64 mixedGroup [171, 0, 205, 0] wideChannel = .error .rangeError ∧
    ∃ vs, decode_channel_as_f64 mixedGroup [171, 0, 205, 0] narrowChannel = .ok vs := by
  have h := c6_bad_bit_range_local_to_channel mixedGroup [171, 0, 205, 0] wideChannel
    (by decide) rfl rfl (by decide)
  exact ⟨h.1, h.2 narrowChannel (by decide) (by decide) (Or.inl rfl) (by decide)⟩

lemma entryDist_of_lt_low (r : ℚ) (t : ℚ × ℚ × ℚ) (h : r < t.1) :
    entryDist r t = t.1 - r := by
  unfold entryDist
  rw [if_pos h]

lemma entryDist_of_high_lt (r : ℚ) (t : ℚ × ℚ × ℚ) (hwf : t.1 ≤ t.2.1) (h : t.2.1 < r) :
    entryDist r t = r - t.2.1 := by
  unfold entryDist
  rw [if_neg (by linarith), if_pos h]

lemma chain_low (t0 : ℚ × ℚ × ℚ) (ts : List (ℚ × ℚ × ℚ))
    (hwf : ∀ t ∈ t0 :: ts, t.1 ≤ t.2.1)
    (hord : (t0 :: ts).Chain' (fun t t' => t.2.1 < t'.1)) :
    ∀ t ∈ ts, t0.2.1 < t.1 := by
  induction ts generalizing t0 with
  | nil => intro t ht; exact absurd ht (List.not_mem_nil t)
  | cons t1 ts' ih =>
    intro t ht
    have hrel : t0.2.1 < t1.1 := (List.chain'_cons.mp hord).1
    rcases List.mem_cons.mp ht with h | h
    · rw [h]
      exact hrel
    · have hmid := ih t1 (fun u hu => hwf u (List.mem_cons_of_mem _ hu))
        (List.chain'_cons.mp hord).2 t h
      have h1 : t1.1 ≤ t1.2.1 := hwf t1 (by simp)
      linarith

lemma high_le_getLastD (t0 : ℚ × ℚ × ℚ) (ts : List (ℚ × ℚ × ℚ))
    (hwf : ∀ t ∈ t0 :: ts, t.1 ≤ t.2.1)
    (hord : (t0 :: ts).Chain' (fun t t' => t.2.1 < t'.1)) :
    ∀ t ∈ t0 :: ts, t.2.1 ≤ (ts.getLastD t0).2.1 := by
  induction ts generalizing t0 with
  | nil =>
    intro t ht
    have : t = t0 := by simpa using ht
    rw [this]
    exact le_rfl
  | cons t1 ts' ih =>
    intro t ht
    have hrel : t0.2.1 < t1.1 := (List.chain'_cons.mp hord).1
    have h1 : t1.1 ≤ t1.2.1 := hwf t1 (by simp)
    have htail := ih t1 (fun u hu => hwf u (List.mem_cons_of_mem _ hu))
      (List.chain'_cons.mp hord).2
    rw [List.getLastD_cons]
    rcases List.mem_cons.mp ht with h | h
    · have := htail t1 (by simp)
      rw [h]
      linarith
    · exact htail t h

lemma nearestEntry_keep (r : ℚ) (best : ℚ × ℚ × ℚ) :
    ∀ ts : List (ℚ × ℚ × ℚ),
      (∀ t ∈ ts, ¬entryDist r t < entryDist r best) → nearestEntry r best ts = best := by
  intro ts
  induction ts with
  | nil => intro _; rfl
  | cons t ts' ih =>
    intro h
    unfold nearestEntry
    rw [if_neg (h t (by simp))]
    exact ih (fun u hu => h u (by simp [hu]))

lemma nearestEntry_getLastD (r : ℚ) :
    ∀ (ts : List (ℚ × ℚ × ℚ)) (best : ℚ × ℚ × ℚ),
      (∀ t ∈ best :: ts, t.1 ≤ t.2.1) →
      (best :: ts).Chain' (fun t t' => t.2.1 < t'.1) →
      (∀ t ∈ best :: ts, t.2.1 < r) →
      nearestEntry r best ts = ts.getLastD best := by
  intro ts
  induction ts with
  | nil => intro best _ _ _; rfl
  | cons t1 ts' ih =>
    intro best hwf hord hr
    have hrel : best.2.1 < t1.1 := (List.chain'_cons.mp hord).1
    have h1 : t1.1 ≤ t1.2.1 := hwf t1 (by simp)
    have hdb : entryDist r best = r - best.2.1 :=
      entryDist_of_high_lt r best (hwf best (by simp)) (hr best (by simp))
    have hdt : entryDist r t1 = r - t1.2.1 :=
      entryDist_of_high_lt r t1 h1 (hr t1 (by simp))
    unfold nearestEntry
    rw [if_pos (by rw [hdb, hdt]; linarith), List.getLastD_cons]
    exact ih t1 (fun u hu => hwf u (List.mem_cons_of_mem _ hu))
      (List.chain'_cons.mp hord).2 (fun u hu => hr u (List.mem_cons_of_mem _ hu))

/-- C5: for a nonempty ordered value-range-to-value table, a raw value
below the lowest low clamps to the first entry value and a raw value
above the highest high clamps to the last entry value. -/
theorem c5_range_table_clamps_to_edges (t0 : ℚ × ℚ × ℚ) (ts : List (ℚ × ℚ × ℚ)) (r : ℚ)
    (hwf : ∀ t ∈ t0 :: ts, t.1 ≤ t.2.1)
    (hord : (t0 :: ts).Chain' (fun t t' => t.2.1 < t'.1)) :
    (r < t0.1 → apply (.rangeTable (t0 :: ts)) r = .num t0.2.2) ∧
    ((ts.getLastD t0).2.1 < r →
      apply (.rangeTable (t0 :: ts)) r = .num ((ts.getLastD t0).2.2)) := by
  constructor
  · intro hlt
    have hlow : ∀ t ∈ t0 :: ts, r < t.1 := by
      intro t ht
      rcases List.mem_cons.mp ht with h | h
      · rw [h]
        exact hlt
      · have := chain_low t0 ts hwf hord t h
        have h0 : t0.1 ≤ t0.2.1 := hwf t0 (by simp)
        linarith
    have hfind : (t0 :: ts).find? (fun t => decide (t.1 ≤ r) && decide (r ≤ t.2.1)) = none := by
      rw [List.find?_eq_none]
      intro t ht
      simp only [Bool.and_eq_true, decide_eq_true_eq, not_and]
      intro hle
      exact absurd hle (not_le.mpr (hlow t ht))
    have hkeep : nearestEntry r t0 ts = t0 := by
      apply nearestEntry_keep
      intro t ht
      rw [entryDist_of_lt_low r t (hlow t (List.mem_cons_of_mem _ ht)),
        entryDist_of_lt_low r t0 hlt]
      have hc := chain_low t0 ts hwf hord t ht
      have h0 : t0.1 ≤ t0.2.1 := hwf t0 (by simp)
      intro hcon
      linarith
    show rangeTableLookup (t0 :: ts) r = .num t0.2.2
    unfold rangeTableLookup
    rw [hfind]
    show Value.num (nearestEntry r t0 ts).2.2 = Value.num t0.2.2
    rw [hkeep]
  · intro hgt
    have hhigh : ∀ t ∈ t0 :: ts, t.2.1 < r := by
      intro t ht
      have := high_le_getLastD t0 ts hwf hord t ht
      linarith
    have hfind : (t0 :: ts).find? (fun t => decide (t.1 ≤ r) && decide (r ≤ t.2.1)) = none := by
      rw [List.find?_eq_none]
      intro t ht
      simp only [Bool.and_eq_true, decide_eq_true_eq, not_and]
      intro _
      exact not_le.mpr (hhigh t ht)
    show rangeTableLookup (t0 :: ts) r = .num ((ts.getLastD t0).2.2)
    unfold rangeTableLookup
    rw [hfind]
    show Value.num (nearestEntry r t0 ts).2.2 = Value.num ((ts.getLastD t0).2.2)
    rw [nearestEntry_getLastD r ts t0 hwf hord hhigh]

/-- Witness for C5: the table with ranges [0,1] -> 10 and [2,3] -> 20
clamps raw -1 to 10 and raw 5 to 20. -/
theorem c5_range_table_clamps_to_edges_witness :
    apply (.rangeTable [(0, 1, 10), (2, 3, 20)]) (-1) = .num 10 ∧
    apply (.rangeTable [(0, 1, 10), (2, 3, 20)]) 5 = .num 20 := by
  have h1 := c5_range_table_clamps_to_edges (0, 1, 10) [(2, 3, 20)] (-1)
    (by intro t ht; fin_cases ht <;> norm_num) (by norm_num [List.chain'_cons])
  have h2 := c5_range_table_clamps_to_edges (0, 1, 10) [(2, 3, 20)] 5
    (by intro t ht; fin_cases ht <;> norm_num) (by norm_num [List.chain'_cons])
  exact ⟨h1.1 (by norm_num), h2.2 (by norm_num [List.getLastD_cons])⟩

lemma openWalk_cyclic (src : SpecSource) (offs : Nat → Nat) (j : Nat)
    (hstep : ∀ i < j, src.dgAt (offs i) = some (.ok ⟨offs (i + 1)⟩))
    (hnz : ∀ i ≤ j, offs i ≠ 0)
    (hcyc : ∃ i < j, offs j = offs i) :
    ∀ (fuel k : Nat) (visited : List Nat), k ≤ j → j - k < fuel →
      (∀ i < k, offs i ∈ visited) → (∀ v ∈ visited, ∃ i < k, offs i = v) →
      openWalk src fuel visited (offs k) = some (.error .formatCyclicLink) := by
  intro fuel
  induction fuel with
  | zero => intro k visited _ hf _ _; omega
  | succ fuel ih =>
    intro k visited hk hf hv1 hv2
    rw [openWalk, if_neg (hnz k hk)]
    by_cases hmem : offs k ∈ visited
    · rw [if_pos hmem]
    · rw [if_neg hmem]
      have hkj : k ≠ j := by
        intro h
        obtain ⟨i, hij, hoff⟩ := hcyc
        apply hmem
        rw [h, hoff]
        exact hv1 i (h ▸ hij)
      have hklt : k < j := lt_of_le_of_ne hk hkj
      rw [hstep k hklt]
      exact ih (k + 1) (offs k :: visited) hklt (by omega)
        (fun i hi => by
          rcases Nat.lt_succ_iff_lt_or_eq.mp hi with h | h
          · exact List.mem_cons_of_mem _ (hv1 i h)
          · rw [h]; exact List.mem_cons_self _ _)
        (fun v hv => by
          rcases List.mem_cons.mp hv with h | h
          · exact ⟨k, Nat.lt_succ_self k, h.symm⟩
          · obtain ⟨i, hi, he⟩ := hv2 v h
            exact ⟨i, Nat.lt_succ_of_lt hi, he⟩)

/-- C2: when the Data Group sibling chain contains a cycle — the chain of
offsets followed from the first link repeats an offset before reaching a
null link, with every block on the way readable — open terminates (given
fuel beyond the repeat point it returns a value, never recursing forever)
and fails with FormatError::CyclicLink, detected via the visited set. -/
theorem c2_cyclic_chain_fails_with_cyclic_link (src : SpecSource) (offs : Nat → Nat)
    (j fuel : Nat)
    (hid : src.idBlockValid = true)
    (h0 : offs 0 = src.firstDGLink)
    (hstep : ∀ i < j, src.dgAt (offs i) = some (.ok ⟨offs (i + 1)⟩))
    (hnz : ∀ i ≤ j, offs i ≠ 0)
    (hcyc : ∃ i < j, offs j = offs i)
    (hfuel : j < fuel) :
    openFile src fuel = some (.error .formatCyclicLink) := by
  unfold openFile
  rw [if_neg (by simp [hid]), ← h0]
  exact openWalk_cyclic src offs j hstep hnz hcyc fuel 0 [] (by omega) (by omega)
    (fun i hi => absurd hi (Nat.not_lt_zero i))
    (fun v hv => absurd hv (List.not_mem_nil v))

/-- Witness for C2: the source whose sibling links run 10 -> 20 -> 10. -/
theorem c2_cyclic_chain_fails_with_cyclic_link_witness :
    openFile cyclicSource 3 = some (.error .formatCyclicLink) :=
  c2_cyclic_chain_fails_with_cyclic_link cyclicSource cyclicChain 2 3 rfl rfl
    (by intro i hi; interval_cases i <;> rfl)
    (by intro i hi; interval_cases i <;> decide)
    ⟨0, by omega, by decide⟩ (by omega)

lemma openWalk_first_error (src : SpecSource) (offs : Nat → Nat) (m : Nat) (e : Err)
    (hstep : ∀ i < m, src.dgAt (offs i) = some (.ok ⟨offs (i + 1)⟩))
    (hnz : ∀ i ≤ m, offs i ≠ 0)
    (hdist : ∀ i ≤ m, ∀ i' < i, offs i ≠ offs i')
    (herr : src.dgAt (offs m) = none ∧ e = .ioError ∨ src.dgAt (offs m) = some (.error e)) :
    ∀ (fuel k : Nat) (visited : List Nat), k ≤ m → m - k < fuel →
      (∀ v ∈ visited, ∃ i < k, offs i = v) →
      openWalk src fuel visited (offs k) = some (.error e) := by
  intro fuel
  induction fuel with
  | zero => intro k visited _ hf _; omega
  | succ fuel ih =>
    intro k visited hk hf hv
    rw [openWalk, if_neg (hnz k hk)]
    have hmem : offs k ∉ visited := by
      intro hmem
      obtain ⟨i, hi, he⟩ := hv _ hmem
      exact hdist k hk i hi he.symm
    rw [if_neg hmem]
    rcases Nat.lt_or_ge k m with hklt | hge
    · rw [hstep k hklt]
      exact ih (k + 1) (offs k :: visited) hklt (by omega)
        (fun v hvm => by
          rcases List.mem_cons.mp hvm with h | h
          · exact ⟨k, Nat.lt_succ_self k, h.symm⟩
          · obtain ⟨i, hi, hei⟩ := hv v h
            exact ⟨i, Nat.lt_succ_of_lt hi, hei⟩)
    · have hkm : k = m := le_antisymm hk hge
      subst hkm
      rcases herr with ⟨hn, he⟩ | hs
      · rw [hn, he]
      · rw [hs]

/-- C3: when the graph walk of open hits a structural error — a read
failure (IoError) or a Data Group subtree that fails to parse — at any
position of an otherwise well-formed sibling chain, open returns exactly
that originating error, and never returns a parsed graph. -/
theorem c3_structural_error_aborts_open (src : SpecSource) (offs : Nat → Nat)
    (m : Nat) (e : Err) (fuel : Nat)
    (hid : src.idBlockValid = true)
    (h0 : offs 0 = src.firstDGLink)
    (hstep : ∀ i < m, src.dgAt (offs i) = some (.ok ⟨offs (i + 1)⟩))
    (hnz : ∀ i ≤ m, offs i ≠ 0)
    (hdist : ∀ i ≤ m, ∀ i' < i, offs i ≠ offs i')
    (herr : src.dgAt (offs m) = none ∧ e = .ioError ∨ src.dgAt (offs m) = some (.error e))
    (hfuel : m < fuel) :
    openFile src fuel = some (.error e) ∧
    ∀ gr : List Nat, openFile src fuel ≠ some (.ok gr) := by
  have h1 : openFile src fuel = some (.error e) := by
    unfold openFile
    rw [if_neg (by simp [hid]), ← h0]
    exact openWalk_first_error src offs m e hstep hnz hdist herr fuel 0 []
      (by omega) (by omega) (fun v hv => absurd hv (List.not_mem_nil v))
  refine ⟨h1, fun gr => ?_⟩
  rw [h1]
  simp

/-- Witness for C3: a source whose second Data Group fails to parse with a
bad signature; open reports exactly that error and no graph. -/
theorem c3_structural_error_aborts_open_witness :
    openFile badSource 3 = some (.error .formatBadSignature) ∧
    openFile badSource 3 ≠ some (.ok [10, 20]) := by
  have h := c3_structural_error_aborts_open badSource badChain 1 .formatBadSignature 3
    rfl rfl
    (by intro i hi; interval_cases i <;> rfl)
    (by intro i hi; interval_cases i <;> decide)
    (by intro i hi i' hi'; interval_cases i <;> interval_cases i' <;> decide)
    (Or.inr rfl) (by omega)
  exact ⟨h.1, h.2 [10, 20]⟩

end Mdf4
